import Mathlib

/-!
Verification of the GEMV benchmarking demo (`demo.py`).

The program computes `y = alpha*A*x + beta*y` over 64-bit floats with several
variants: a parallel CPU loop (`gemv_v1`), a library matmul (`gemv_v2`), and a
GPU harness (`gemv_v3`) that launches a device kernel on a grid of execution
groups of `BLOCK_SIZE` workers.  Two device kernels exist in the source: the
naive one-worker-per-row kernel (`_gemv_cuda`) and a tiled shared-memory kernel
(`_gemv_cuda_shared`).

Shallow embedding conventions:
* exact rational arithmetic (`ℚ`) stands in for 64-bit floating point;
* matrices are total functions `ℕ → ℕ → ℚ` with dimensions `N` (rows) and
  `M` (columns) carried separately; vectors are `ℕ → ℚ`;
* a device kernel is embedded as a per-thread function returning the single
  memory write the thread performs (`some (index, value)`) or `none` when the
  thread returns without writing; a grid execution folds the writes of threads
  `0, 1, ..., T-1` into the output buffer;
* the uninitialized contents of the on-chip shared tile buffer are an explicit
  environment parameter (`lx0`, per execution group), since the source never
  initializes the buffer and threads whose row is out of range return before
  the cooperative load;
* for the frame/aliasing analysis the host and device arrays live in an
  explicit heap of numbered buffers, and each variant is embedded as a state
  transformer on that heap.
-/

/-- Sequential left-to-right accumulation `acc = init; for j in range(n): acc += f j`,
the embedding of the Python accumulation loops. -/
def accumFrom (f : ℕ → ℚ) (init : ℚ) : ℕ → ℚ
  | 0 => init
  | n + 1 => accumFrom f init n + f n

/-- `prod = 0.0; for j in range(n): prod += f j`. -/
def accum (f : ℕ → ℚ) (n : ℕ) : ℚ := accumFrom f 0 n

/-- Row `i` of the library matrix-vector product `A @ x` for an `N×M` matrix
(the semantics of numpy `@` on row `i`). -/
def matvec (A : ℕ → ℕ → ℚ) (M : ℕ) (x : ℕ → ℚ) : ℕ → ℚ :=
  fun i => ∑ j ∈ Finset.range M, A i j * x j

/-- The reference computation `y_ref = alpha*(A @ x) + beta*y` from the main
program (line 223 of `demo.py`), for a square `N×N` matrix. -/
def gemvRef (alpha : ℚ) (A : ℕ → ℕ → ℚ) (N : ℕ) (x : ℕ → ℚ) (beta : ℚ)
    (y : ℕ → ℚ) : ℕ → ℚ :=
  fun i => alpha * matvec A N x i + beta * y i

/-- Embedding of `gemv_v1` (parallel CPU loop): allocates `y_ret = np.empty(N)`
and writes row results for `i < N`; entries never written keep the allocation
garbage `emptyInit`. -/
def gemv_v1 (alpha : ℚ) (A : ℕ → ℕ → ℚ) (N M : ℕ) (x : ℕ → ℚ) (beta : ℚ)
    (y : ℕ → ℚ) (emptyInit : ℕ → ℚ) : ℕ → ℚ :=
  fun i =>
    if i < N then alpha * accum (fun j => A i j * x j) M + beta * y i
    else emptyInit i

/-- Embedding of `gemv_v2`: `alpha*(A @ x) + beta*y` via the library product. -/
def gemv_v2 (alpha : ℚ) (A : ℕ → ℕ → ℚ) (N M : ℕ) (x : ℕ → ℚ) (beta : ℚ)
    (y : ℕ → ℚ) : ℕ → ℚ :=
  fun i => alpha * matvec A M x i + beta * y i

/-- `BLOCK_SIZE = 128`. -/
def BLOCK_SIZE : ℕ := 128

/-- The grid-size computation of the GPU harness `gemv_v3` (and `vecadd`):
`num_blocks = N // BLOCK_SIZE`, incremented when `N % BLOCK_SIZE` is nonzero. -/
def numBlocks (N : ℕ) : ℕ :=
  N / BLOCK_SIZE + if N % BLOCK_SIZE ≠ 0 then 1 else 0

/-- Per-thread embedding of the naive device kernel `_gemv_cuda`: thread `i`
returns early when `i >= N`, otherwise accumulates its row product and writes
`y[i] = alpha*prod + beta*y[i]`.  The returned option is the single write the
thread performs. -/
def gemvCudaThread (alpha : ℚ) (A : ℕ → ℕ → ℚ) (N M : ℕ) (x : ℕ → ℚ)
    (beta : ℚ) (y : ℕ → ℚ) (i : ℕ) : Option (ℕ × ℚ) :=
  if N ≤ i then none
  else some (i, alpha * accum (fun j => A i j * x j) M + beta * y i)

/-- Apply the (at most one) write a thread performs to a buffer. -/
def applyThreadWrite (buf : ℕ → ℚ) : Option (ℕ × ℚ) → (ℕ → ℚ)
  | none => buf
  | some p => Function.update buf p.1 p.2

/-- Execute a grid of `T` threads over a buffer, folding each thread's write
into the buffer.  Each thread of the kernels below writes only its own index,
so the fold order is immaterial. -/
def runGrid (thread : ℕ → Option (ℕ × ℚ)) : ℕ → (ℕ → ℚ) → (ℕ → ℚ)
  | 0, buf => buf
  | t + 1, buf => applyThreadWrite (runGrid thread t buf) (thread t)

/-- Embedding of the GPU harness `gemv_v3`: copies `A`, `x`, `y` to the device
and launches the NAIVE kernel `_gemv_cuda` (demo.py line 123) on a grid of
`numBlocks N` groups of `BLOCK_SIZE` threads, returning the copied-back output
buffer.  `N` and `M` are the dimensions of `A` (the kernel reads both from the
device array's shape; the harness computes the grid from `N = A.shape[0]`). -/
def gemv_v3 (alpha : ℚ) (A : ℕ → ℕ → ℚ) (N M : ℕ) (x : ℕ → ℚ) (beta : ℚ)
    (y : ℕ → ℚ) : ℕ → ℚ :=
  runGrid (gemvCudaThread alpha A N M x beta y) (numBlocks N * BLOCK_SIZE) y

/-- One execution group's shared tile buffer after the cooperative loads of
tiles `0, ..., b-1` of the tiled kernel `_gemv_cuda_shared`, together with one
surviving thread's running accumulator.  Group `blk` has threads
`tid < bsize` with global row `blk*bsize + tid`; a thread participates in the
load `lx[tid] = x[tid + b*bsize]` only when its row is in range (out-of-range
threads returned at kernel entry, before the tile loop), so lanes belonging to
exited threads keep the residual contents `lx0`.  The inner loop reads all
`BLOCK_SIZE` lanes of the tile:
`for j in range(BLOCK_SIZE): prod += A[i, j + b*bsize]*lx[j]`. -/
def sharedTilesRun (A : ℕ → ℕ → ℚ) (x : ℕ → ℚ) (N bsize blk i : ℕ)
    (lx0 : ℕ → ℚ) : ℕ → ℚ × (ℕ → ℚ)
  | 0 => (0, lx0)
  | b + 1 =>
    let st := sharedTilesRun A x N bsize blk i lx0 b
    let lx := fun t =>
      if t < bsize ∧ blk * bsize + t < N then x (t + b * bsize) else st.2 t
    (accumFrom (fun j => A i (j + b * bsize) * lx j) st.1 BLOCK_SIZE, lx)

/-- Per-thread embedding of the tiled shared-memory kernel `_gemv_cuda_shared`
for the thread with global index `i`, launched with `bsize` threads per group:
early return when `i >= N`, otherwise run `num_blocks = M // bsize` full tiles
and write `y[i] = alpha*prod + beta*y[i]`.  `lx0` gives the residual contents
of each group's shared buffer. -/
def gemvCudaSharedThread (alpha : ℚ) (A : ℕ → ℕ → ℚ) (N M : ℕ) (x : ℕ → ℚ)
    (beta : ℚ) (y : ℕ → ℚ) (bsize : ℕ) (lx0 : ℕ → ℕ → ℚ) (i : ℕ) :
    Option (ℕ × ℚ) :=
  if N ≤ i then none
  else
    some (i, alpha *
      (sharedTilesRun A x N bsize (i / bsize) i (lx0 (i / bsize)) (M / bsize)).1
      + beta * y i)

/-- The tiled shared-memory kernel launched the way the harness launches device
kernels: a grid of `numBlocks N` execution groups of `BLOCK_SIZE` workers, one
worker per row. -/
def launchShared (alpha : ℚ) (A : ℕ → ℕ → ℚ) (N M : ℕ) (x : ℕ → ℚ)
    (beta : ℚ) (y : ℕ → ℚ) (lx0 : ℕ → ℕ → ℚ) : ℕ → ℚ :=
  runGrid (gemvCudaSharedThread alpha A N M x beta y BLOCK_SIZE lx0)
    (numBlocks N * BLOCK_SIZE) y

/-- Relative tolerance of numpy `allclose` (default `rtol = 1e-5`). -/
def rtol : ℚ := 1 / 100000

/-- Absolute tolerance of numpy `allclose` (default `atol = 1e-8`). -/
def atol : ℚ := 1 / 100000000

/-- Semantics of `np.allclose(found, expected)` on two length-`N` vectors:
every element satisfies `|found i - expected i| <= atol + rtol*|expected i|`. -/
def allclose (found expected : ℕ → ℚ) (N : ℕ) : Bool :=
  (List.range N).all fun i =>
    decide (|found i - expected i| ≤ atol + rtol * |expected i|)

/-- Embedding of `validate(found, expected) = np.allclose(found, expected)`. -/
def validate (found expected : ℕ → ℚ) (N : ℕ) : Bool :=
  allclose found expected N

/-- Embedding of the timing record `time_region`: constructor offset
`_time_off`, entry mark `_t_start`, exit mark `_t_end`. -/
structure time_region where
  time_off : ℚ
  t_start : ℚ
  t_end : ℚ

/-- `elapsed_time = self._time_off + (self._t_end - self._t_start)`. -/
def time_region.elapsed_time (r : time_region) : ℚ :=
  r.time_off + (r.t_end - r.t_start)

/-- Chaining sequentially timed regions the way `gemv_v3` chains its two
transfer regions (line 125: `time_region_cuda(t_xfer.elapsed_time())`): each
region's offset is the previous region's elapsed time; returns the final
elapsed time given the list of (entry, exit) instants. -/
def chainRegions (t0 : ℚ) : List (ℚ × ℚ) → ℚ
  | [] => t0
  | p :: rest => chainRegions (time_region.elapsed_time ⟨t0, p.1, p.2⟩) rest

/-- Decimal digits of a string, as a number; `none` when empty or any
character is not a digit.  Helper for the model of Python `int`. -/
def parseDigits (l : List Char) : Option ℕ :=
  match l with
  | [] => none
  | _ =>
    l.foldl
      (fun acc c =>
        match acc with
        | none => none
        | some a => if c.isDigit then some (a * 10 + (c.toNat - 48)) else none)
      (some 0)

/-- Model of Python `int(s)` on a command-line argument: an optional sign
followed by decimal digits (whitespace/underscore forms are not modelled). -/
def parseIntPy (s : String) : Option ℤ :=
  match s.toList with
  | '-' :: rest => (parseDigits rest).map fun n => -(n : ℤ)
  | '+' :: rest => (parseDigits rest).map fun n => (n : ℤ)
  | l => (parseDigits l).map fun n => (n : ℤ)

/-- The version tags for which `globals()['gemv_' + version]` succeeds: the
module defines exactly `gemv_v1`, `gemv_v2`, `gemv_v3`. -/
def knownVersions : List String := ["v1", "v2", "v3"]

/-- The kernel the main program dispatches to for a known version tag (square
`N×N` problem, as set up by main). -/
def runKernel (version : String) (alpha : ℚ) (A : ℕ → ℕ → ℚ) (N : ℕ)
    (x : ℕ → ℚ) (beta : ℚ) (y : ℕ → ℚ) (emptyEnv : ℕ → ℚ) : ℕ → ℚ :=
  if version = "v1" then gemv_v1 alpha A N N x beta y emptyEnv
  else if version = "v2" then gemv_v2 alpha A N N x beta y
  else gemv_v3 alpha A N N x beta y

/-- Observable outcome of a run of the main program: the exit code, and the
(found, expected) vectors printed on validation failure. -/
structure MainResult where
  exit_code : ℕ
  printed : Option ((ℕ → ℚ) × (ℕ → ℚ))
  deriving Nonempty

/-- `alpha = 0.2` in the main program. -/
def alphaMain : ℚ := 1 / 5

/-- `beta = 1` in the main program. -/
def betaMain : ℚ := 1

/-- Embedding of the `__main__` block of `demo.py`.  `randA` and `randx` stand
for the random host data (`np.random.rand`), `emptyEnv` for the contents of
`np.empty` allocations; `y_orig = np.ones(N)`.  Control flow mirrors the
source: argument-count check, `int()` parse, `globals()` kernel lookup,
positivity check, compute, validate; validation failure prints both vectors
and exits 1, success falls off the end with exit code 0. -/
def mainRun (argv : List String) (randA : ℕ → ℕ → ℚ) (randx : ℕ → ℚ)
    (emptyEnv : ℕ → ℚ) : MainResult :=
  if argv.length < 3 then ⟨1, none⟩
  else
    match parseIntPy (argv.getD 1 "") with
    | none => ⟨1, none⟩
    | some n =>
      let version := argv.getD 2 ""
      if version ∈ knownVersions then
        if n ≤ 0 then ⟨1, none⟩
        else
          let N := n.toNat
          let y_orig : ℕ → ℚ := fun _ => 1
          let y := runKernel version alphaMain randA N randx betaMain y_orig
            emptyEnv
          let y_ref := gemvRef alphaMain randA N randx betaMain y_orig
          if validate y y_ref N then ⟨0, none⟩ else ⟨1, some (y, y_ref)⟩
      else ⟨1, none⟩

/-! ### Heap model for the frame analysis -/

/-- A heap of numbered array buffers.  Address `a` holds a two-dimensional
array `mem a : ℕ → ℕ → ℚ`; vectors are stored in column 0.  `next` is the
next fresh address. -/
structure Heap where
  next : ℕ
  mem : ℕ → ℕ → ℕ → ℚ

/-- Allocate a fresh buffer with the given contents. -/
def Heap.alloc (h : Heap) (init : ℕ → ℕ → ℚ) : ℕ × Heap :=
  (h.next, ⟨h.next + 1, fun a => if a = h.next then init else h.mem a⟩)

/-- Read element `i` of the vector at address `a`. -/
def Heap.vecRead (h : Heap) (a i : ℕ) : ℚ := h.mem a i 0

/-- Write element `i` of the vector at address `addr`. -/
def Heap.vecWrite (h : Heap) (addr i : ℕ) (v : ℚ) : Heap :=
  ⟨h.next, fun a =>
    if a = addr then fun i' j' => if i' = i ∧ j' = 0 then v else h.mem a i' j'
    else h.mem a⟩

/-- The write loop of `gemv_v1` on the heap: for `i in range(n)`, write
`y_ret[i] = alpha*prod + beta*y[i]`, reading `A`, `x`, `y` from the heap. -/
def gemvV1Loop (alpha : ℚ) (aA aX : ℕ) (beta : ℚ) (aY aRet M : ℕ) :
    ℕ → Heap → Heap
  | 0, h => h
  | i + 1, h =>
    let h1 := gemvV1Loop alpha aA aX beta aY aRet M i h
    h1.vecWrite aRet i
      (alpha * accum (fun j => h1.mem aA i j * h1.vecRead aX j) M +
        beta * h1.vecRead aY i)

/-- Heap-level embedding of `gemv_v1` on buffers `aA` (N×M matrix), `aX`,
`aY`: allocates `y_ret = np.empty(N)` (contents `emptyInit`), runs the write
loop, returns the address of the result. -/
def gemv_v1_heap (alpha : ℚ) (aA aX : ℕ) (beta : ℚ) (aY : ℕ) (N M : ℕ)
    (emptyInit : ℕ → ℕ → ℚ) (h : Heap) : ℕ × Heap :=
  let alloc := h.alloc emptyInit
  (alloc.1, gemvV1Loop alpha aA aX beta aY alloc.1 M N alloc.2)

/-- Heap-level embedding of `gemv_v2`: the library expression
`alpha*(A @ x) + beta*y` allocates and returns a fresh result array. -/
def gemv_v2_heap (alpha : ℚ) (aA aX : ℕ) (beta : ℚ) (aY : ℕ) (M : ℕ)
    (h : Heap) : ℕ × Heap :=
  h.alloc fun i _ =>
    alpha * matvec (h.mem aA) M (fun j => h.vecRead aX j) i +
      beta * h.vecRead aY i

/-- Execute a device grid on the heap: each thread's write (if any) lands in
the buffer at `addr` (the kernels write only `d_y`). -/
def runGridHeap (thread : ℕ → Option (ℕ × ℚ)) (addr : ℕ) : ℕ → Heap → Heap
  | 0, h => h
  | t + 1, h =>
    let h1 := runGridHeap thread addr t h
    match thread t with
    | none => h1
    | some p => h1.vecWrite addr p.1 p.2

/-- Heap-level embedding of `gemv_v3` on a square `N×N` problem: allocate
device copies `d_A`, `d_x`, `d_y` of the host buffers, launch the naive kernel
(which reads the launch-time device contents; each thread reads `d_y` only at
its own index, which no other thread writes), allocate the copied-back host
result `y_ret`, and return its address. -/
def gemv_v3_heap (alpha : ℚ) (aA aX : ℕ) (beta : ℚ) (aY : ℕ) (N : ℕ)
    (h : Heap) : ℕ × Heap :=
  let allocA := h.alloc (h.mem aA)
  let allocX := allocA.2.alloc (allocA.2.mem aX)
  let allocY := allocX.2.alloc (allocX.2.mem aY)
  let h3 := allocY.2
  let thread := gemvCudaThread alpha (h3.mem allocA.1) N N
    (fun j => h3.vecRead allocX.1 j) beta (fun i => h3.vecRead allocY.1 i)
  let h4 := runGridHeap thread allocY.1 (numBlocks N * BLOCK_SIZE) h3
  let allocRet := h4.alloc (h4.mem allocY.1)
  (allocRet.1, allocRet.2)

/-! ### Helper lemmas -/

theorem accumFrom_eq_add (f : ℕ → ℚ) (init : ℚ) (n : ℕ) :
    accumFrom f init n = init + ∑ j ∈ Finset.range n, f j := by
  induction n with
  | zero => simp [accumFrom]
  | succ n ih => rw [accumFrom, ih, Finset.sum_range_succ]; ring

theorem accum_eq_sum (f : ℕ → ℚ) (n : ℕ) :
    accum f n = ∑ j ∈ Finset.range n, f j := by
  rw [accum, accumFrom_eq_add, zero_add]

/-- A grid of threads that each write only their own index yields, at index
`i`, the value thread `i` wrote (when `i` is in the grid and wrote), and the
original buffer contents otherwise. -/
theorem runGrid_apply (thread : ℕ → Option (ℕ × ℚ))
    (hw : ∀ t p, thread t = some p → p.1 = t) (T : ℕ) (buf : ℕ → ℚ) (i : ℕ) :
    runGrid thread T buf i =
      (if i < T then
        (match thread i with
        | some p => p.2
        | none => buf i)
      else buf i) := by
  induction T with
  | zero => simp [runGrid]
  | succ T ih =>
    rw [runGrid]
    rcases hT : thread T with _ | p
    · rw [applyThreadWrite, ih]
      by_cases hiT : i = T
      · subst hiT
        simp [hT]
      · have hiff : i < T + 1 ↔ i < T := by omega
        simp [hiff]
    · have hp := hw T p hT
      rw [applyThreadWrite]
      by_cases hiT : i = T
      · subst hiT
        rw [← hp, Function.update_same, hp]
        simp [hT]
      · rw [Function.update_noteq (by omega : i ≠ p.1) _ _, ih]
        have hiff : i < T + 1 ↔ i < T := by omega
        simp [hiff]

theorem numBlocks_mul_ge (N : ℕ) : N ≤ numBlocks N * BLOCK_SIZE := by
  rw [numBlocks, BLOCK_SIZE]
  rcases eq_or_ne (N % 128) 0 with h | h <;> simp [h] <;> omega

/-- The naive kernel, run on any grid of at least `N` threads, writes the full
row reduction at every row `i < N`. -/
theorem naiveGrid_apply (alpha : ℚ) (A : ℕ → ℕ → ℚ) (N M : ℕ) (x : ℕ → ℚ)
    (beta : ℚ) (y : ℕ → ℚ) (T : ℕ) (hT : N ≤ T) (i : ℕ) (hi : i < N) :
    runGrid (gemvCudaThread alpha A N M x beta y) T y i =
      alpha * (∑ j ∈ Finset.range M, A i j * x j) + beta * y i := by
  rw [runGrid_apply]
  · have hiT : i < T := lt_of_lt_of_le hi hT
    have hth : gemvCudaThread alpha A N M x beta y i =
        some (i, alpha * accum (fun j => A i j * x j) M + beta * y i) := by
      rw [gemvCudaThread, if_neg (by omega)]
    simp [hiT, hth, accum_eq_sum]
  · intro t p hp
    rw [gemvCudaThread] at hp
    by_cases ht : N ≤ t
    · rw [if_pos ht] at hp; cases hp
    · rw [if_neg ht] at hp
      cases hp
      rfl

/-- In a fully populated execution group (`(blk+1)*BLOCK_SIZE ≤ N`), every
lane of the shared tile is cooperatively loaded, so after `b` tiles each
thread's accumulator holds the reduction over the first `b*BLOCK_SIZE`
columns of its row. -/
theorem sharedTilesRun_full (A : ℕ → ℕ → ℚ) (x : ℕ → ℚ) (N blk i : ℕ)
    (lx0 : ℕ → ℚ) (hfull : (blk + 1) * BLOCK_SIZE ≤ N) (b : ℕ) :
    (sharedTilesRun A x N BLOCK_SIZE blk i lx0 b).1 =
      ∑ j ∈ Finset.range (b * BLOCK_SIZE), A i j * x j := by
  induction b with
  | zero => simp [sharedTilesRun]
  | succ b ih =>
    simp only [sharedTilesRun]
    rw [accumFrom_eq_add]
    have hlx : ∀ j ∈ Finset.range BLOCK_SIZE,
        A i (j + b * BLOCK_SIZE) *
          (if j < BLOCK_SIZE ∧ blk * BLOCK_SIZE + j < N then
            x (j + b * BLOCK_SIZE)
          else (sharedTilesRun A x N BLOCK_SIZE blk i lx0 b).2 j) =
        A i (j + b * BLOCK_SIZE) * x (j + b * BLOCK_SIZE) := by
      intro j hj
      rw [Finset.mem_range] at hj
      have h2 : blk * BLOCK_SIZE + j < N := by
        rw [BLOCK_SIZE] at hfull hj ⊢
        omega
      rw [if_pos ⟨hj, h2⟩]
    rw [Finset.sum_congr rfl hlx, ih]
    have hsplit : (b + 1) * BLOCK_SIZE = b * BLOCK_SIZE + BLOCK_SIZE := by
      ring
    rw [hsplit, Finset.sum_range_add]
    congr 1
    apply Finset.sum_congr rfl
    intro j _
    rw [Nat.add_comm]

/-- The tiled kernel under the harness launch, when `N` is a multiple of
`BLOCK_SIZE` (every group fully populated): each row `i < N` receives the
reduction truncated to the first `(M / BLOCK_SIZE) * BLOCK_SIZE` columns, and
indices at or beyond `N` keep the original buffer contents. -/
theorem launchShared_apply (alpha : ℚ) (A : ℕ → ℕ → ℚ) (N M : ℕ)
    (x : ℕ → ℚ) (beta : ℚ) (y : ℕ → ℚ) (lx0 : ℕ → ℕ → ℚ)
    (hN : N % BLOCK_SIZE = 0) (i : ℕ) :
    launchShared alpha A N M x beta y lx0 i =
      (if i < N then
        alpha * (∑ j ∈ Finset.range (M / BLOCK_SIZE * BLOCK_SIZE), A i j * x j)
          + beta * y i
      else y i) := by
  rw [launchShared, runGrid_apply]
  · by_cases hi : i < N
    · have hiT : i < numBlocks N * BLOCK_SIZE :=
        lt_of_lt_of_le hi (numBlocks_mul_ge N)
      have hdvd : BLOCK_SIZE ∣ N := Nat.dvd_of_mod_eq_zero hN
      have hfull : (i / BLOCK_SIZE + 1) * BLOCK_SIZE ≤ N := by
        have hlt : i / BLOCK_SIZE < N / BLOCK_SIZE :=
          Nat.div_lt_div_of_lt_of_dvd hdvd hi
        calc (i / BLOCK_SIZE + 1) * BLOCK_SIZE
            ≤ N / BLOCK_SIZE * BLOCK_SIZE := by
              apply Nat.mul_le_mul_right
              omega
          _ = N := Nat.div_mul_cancel hdvd
      have hth : gemvCudaSharedThread alpha A N M x beta y BLOCK_SIZE lx0 i =
          some (i, alpha *
            (∑ j ∈ Finset.range (M / BLOCK_SIZE * BLOCK_SIZE), A i j * x j)
            + beta * y i) := by
        rw [gemvCudaSharedThread, if_neg (by omega)]
        rw [sharedTilesRun_full _ _ _ _ _ _ hfull]
      simp [hiT, hth, hi]
    · by_cases hiT : i < numBlocks N * BLOCK_SIZE
      · have hth : gemvCudaSharedThread alpha A N M x beta y BLOCK_SIZE lx0 i =
            none := by
          rw [gemvCudaSharedThread, if_pos (by omega)]
        simp [hiT, hth, hi]
      · simp [hiT, hi]
  · intro t p hp
    rw [gemvCudaSharedThread] at hp
    by_cases ht : N ≤ t
    · rw [if_pos ht] at hp
      cases hp
    · rw [if_neg ht] at hp
      cases hp
      rfl

/-- Threads of the tiled kernel write only their own global index. -/
theorem sharedThread_writes_self (alpha : ℚ) (A : ℕ → ℕ → ℚ) (N M : ℕ)
    (x : ℕ → ℚ) (beta : ℚ) (y : ℕ → ℚ) (bsize : ℕ) (lx0 : ℕ → ℕ → ℚ) :
    ∀ t p, gemvCudaSharedThread alpha A N M x beta y bsize lx0 t = some p →
      p.1 = t := by
  intro t p hp
  rw [gemvCudaSharedThread] at hp
  by_cases ht : N ≤ t
  · rw [if_pos ht] at hp
    cases hp
  · rw [if_neg ht] at hp
    cases hp
    rfl

/-- Summing `1` at lane `0` and `c` at the other `BLOCK_SIZE - 1` lanes. -/
theorem sum_lane0 (c : ℚ) :
    ∑ j ∈ Finset.range BLOCK_SIZE, (if j = 0 then (1 : ℚ) else c) =
      1 + 127 * c := by
  have h : ∀ j ∈ Finset.range BLOCK_SIZE,
      (if j = 0 then (1 : ℚ) else c) = (if j = 0 then 1 - c else 0) + c := by
    intro j _
    by_cases h0 : j = 0
    · rw [if_pos h0, if_pos h0]
      ring
    · rw [if_neg h0, if_neg h0]
      ring
  rw [Finset.sum_congr rfl h, Finset.sum_add_distrib, Finset.sum_ite_eq',
    Finset.sum_const]
  have : (0 : ℕ) ∈ Finset.range BLOCK_SIZE := by
    rw [Finset.mem_range, BLOCK_SIZE]
    omega
  rw [if_pos this, Finset.card_range, BLOCK_SIZE]
  simp
  ring

/-- One tile of the tiled kernel in the group of row `0` when `N = 1` (all
other lanes' threads exited before loading): the accumulator picks up `x[0]`
at lane `0` and the residual value `c` at the remaining 127 lanes.  Here
`A = 1`, `x = 1`. -/
theorem shared_one_row_tile (c : ℚ) :
    (sharedTilesRun (fun _ _ => (1 : ℚ)) (fun _ => (1 : ℚ)) 1 BLOCK_SIZE 0 0
      (fun _ => c) 1).1 = 1 + 127 * c := by
  simp only [sharedTilesRun]
  rw [accumFrom_eq_add, zero_add]
  trans (∑ j ∈ Finset.range BLOCK_SIZE, (if j = 0 then (1 : ℚ) else c))
  · apply Finset.sum_congr rfl
    intro j hj
    rw [Finset.mem_range] at hj
    by_cases h0 : j = 0
    · subst h0
      have hcond : (0 : ℕ) < BLOCK_SIZE ∧ 0 * BLOCK_SIZE + 0 < 1 := ⟨hj, by omega⟩
      simp [hcond]
    · have hc : ¬(j < BLOCK_SIZE ∧ 0 * BLOCK_SIZE + j < 1) := by
        intro hand
        omega
      simp [hc, h0]
  · exact sum_lane0 c

/-- The tiled kernel launched on the 1×129 all-ones problem with residual
shared contents `c`: row 0's output is `1 + 127*c` — the single loaded lane
contributes `x[0]`, and the 127 lanes of the exited threads contribute the
residual value. -/
theorem launchShared_one_row (c : ℚ) :
    launchShared 1 (fun _ _ => 1) 1 129 (fun _ => 1) 0 (fun _ => 1)
      (fun _ _ => c) 0 = 1 + 127 * c := by
  rw [launchShared,
    runGrid_apply _ (sharedThread_writes_self 1 (fun _ _ => 1) 1 129
      (fun _ => 1) 0 (fun _ => 1) BLOCK_SIZE (fun _ _ => c))]
  have h0T : (0 : ℕ) < numBlocks 1 * BLOCK_SIZE := by
    rw [numBlocks, BLOCK_SIZE]
    norm_num
  rw [if_pos h0T]
  have hdiv : (129 : ℕ) / BLOCK_SIZE = 1 := by
    rw [BLOCK_SIZE]
  have hdiv0 : (0 : ℕ) / BLOCK_SIZE = 0 := by
    rw [BLOCK_SIZE]
  have hth : gemvCudaSharedThread 1 (fun _ _ => 1) 1 129 (fun _ => 1) 0
      (fun _ => 1) BLOCK_SIZE (fun _ _ => c) 0 =
      some (0, 1 * (1 + 127 * c) + 0 * 1) := by
    rw [gemvCudaSharedThread, if_neg (by omega)]
    rw [hdiv, hdiv0]
    rw [shared_one_row_tile]
  rw [hth]
  ring

/-- The tiled kernel on a 1×1 problem runs zero tiles (`1 // 128 = 0`), so
row 0's output is just `beta*y[0]`; with `beta = 0` it is `0`. -/
theorem launchShared_one_one :
    launchShared 1 (fun _ _ => 1) 1 1 (fun _ => 1) 0 (fun _ => 0)
      (fun _ _ => 0) 0 = 0 := by
  rw [launchShared,
    runGrid_apply _ (sharedThread_writes_self 1 (fun _ _ => 1) 1 1
      (fun _ => 1) 0 (fun _ => 0) BLOCK_SIZE (fun _ _ => 0))]
  have h0T : (0 : ℕ) < numBlocks 1 * BLOCK_SIZE := by
    rw [numBlocks, BLOCK_SIZE]
    norm_num
  rw [if_pos h0T]
  have hth : gemvCudaSharedThread 1 (fun _ _ => 1) 1 1 (fun _ => 1) 0
      (fun _ => 0) BLOCK_SIZE (fun _ _ => 0) 0 = some (0, 0) := by
    rw [gemvCudaSharedThread, if_neg (by omega)]
    have hdiv : (1 : ℕ) / BLOCK_SIZE = 0 := by
      rw [BLOCK_SIZE]
    have hdiv0 : (0 : ℕ) / BLOCK_SIZE = 0 := by
      rw [BLOCK_SIZE]
    rw [hdiv, hdiv0]
    simp [sharedTilesRun]
  rw [hth]

/-! ### Claim theorems -/

/-- Claim C1: for every square dimension `N` that is a positive multiple of
`BLOCK_SIZE`, the tiled shared-memory kernel, launched with group size
`BLOCK_SIZE` and one worker per row, outputs at every row `i`
`alpha * (∑ j < N, A[i,j]*x[j]) + beta*y[i]`, i.e. the reference GEMV value —
for every residual shared-buffer contents `lx0` (exact arithmetic standing in
for the within-tolerance comparison). -/
theorem C1_shared_matches_reference (alpha : ℚ) (A : ℕ → ℕ → ℚ) (N : ℕ)
    (x : ℕ → ℚ) (beta : ℚ) (y : ℕ → ℚ) (lx0 : ℕ → ℕ → ℚ)
    (hpos : 0 < N) (hmul : N % BLOCK_SIZE = 0) (i : ℕ) (hi : i < N) :
    launchShared alpha A N N x beta y lx0 i = gemvRef alpha A N x beta y i := by
  rw [launchShared_apply alpha A N N x beta y lx0 hmul, if_pos hi,
    Nat.div_mul_cancel (Nat.dvd_of_mod_eq_zero hmul)]
  rfl

/-- Witness for C1 at `N = 128`, row 5. -/
theorem C1_witness :
    0 < 128 ∧ 128 % BLOCK_SIZE = 0 ∧ 5 < 128 ∧
    launchShared 1 (fun _ _ => 1) 128 128 (fun _ => 1) 0 (fun _ => 0)
      (fun _ _ => 9) 5 = gemvRef 1 (fun _ _ => 1) 128 (fun _ => 1) 0
        (fun _ => 0) 5 :=
  ⟨by norm_num, by rw [BLOCK_SIZE], by norm_num,
    C1_shared_matches_reference 1 (fun _ _ => 1) 128 (fun _ => 1) 0
      (fun _ => 0) (fun _ _ => 9) (by norm_num) (by rw [BLOCK_SIZE]) 5
      (by norm_num)⟩

/-- Counterexample to claim C2: the device kernel launched by `gemv_v3` is not
the tiled shared-memory kernel.  On the 1×1 all-ones problem with
`alpha = 1`, `beta = 0`, the harness produces `A[0,0]*x[0] = 1` (the naive
kernel's full reduction), while the tiled kernel under the same launch
produces `0` (it runs `1 // 128 = 0` tiles); the two extensionally differ. -/
theorem C2_counterexample :
    gemv_v3 1 (fun _ _ => 1) 1 1 (fun _ => 1) 0 (fun _ => 0) 0 ≠
      launchShared 1 (fun _ _ => 1) 1 1 (fun _ => 1) 0 (fun _ => 0)
        (fun _ _ => 0) 0 := by
  have hv3 : gemv_v3 1 (fun _ _ => 1) 1 1 (fun _ => 1) 0 (fun _ => 0) 0 =
      1 := by
    rw [gemv_v3, naiveGrid_apply 1 (fun _ _ => 1) 1 1 (fun _ => 1) 0
      (fun _ => 0) _ (numBlocks_mul_ge 1) 0 (by norm_num)]
    norm_num
  rw [hv3, launchShared_one_one]
  norm_num

/-- Claim C2 as amended: the GPU path reachable from the dispatch (`gemv_v3`,
tag `"v3"`) launches the NAIVE kernel `_gemv_cuda`; consequently it computes
the full reference GEMV for every positive square `N` — with no
multiple-of-`BLOCK_SIZE` restriction, which the tiled kernel would impose.
The tiled kernel `_gemv_cuda_shared` is defined but never launched. -/
theorem C2_amended_v3_launches_naive (alpha : ℚ) (A : ℕ → ℕ → ℚ) (N : ℕ)
    (x : ℕ → ℚ) (beta : ℚ) (y : ℕ → ℚ) (hpos : 0 < N) (i : ℕ) (hi : i < N) :
    gemv_v3 alpha A N N x beta y i = gemvRef alpha A N x beta y i := by
  rw [gemv_v3,
    naiveGrid_apply alpha A N N x beta y _ (numBlocks_mul_ge N) i hi]
  rfl

/-- Witness for the amended C2 at `N = 129` (not a multiple of 128), row 77. -/
theorem C2_amended_witness :
    0 < 129 ∧ 77 < 129 ∧
    gemv_v3 (1 / 5) (fun i j => i + j) 129 129 (fun _ => 2) 3 (fun _ => 1)
      77 = gemvRef (1 / 5) (fun i j => i + j) 129 (fun _ => 2) 3
        (fun _ => 1) 77 :=
  ⟨by norm_num, by norm_num,
    C2_amended_v3_launches_naive (1 / 5) (fun i j => i + j) 129 (fun _ => 2)
      3 (fun _ => 1) (by norm_num) 77 (by norm_num)⟩

/-- Counterexample to claim C3: with `M = 129` (not a multiple of 128) and
`N = 1`, row 0 survives, yet its output is not the claimed truncated
reduction `alpha * (∑ j < (M/128)*128, A[0,j]*x[j]) + beta*y[0]`.  With all
entries 1, `alpha = 1`, `beta = 0` and zeroed residual shared memory, the
kernel yields `1` — only lane 0 of the tile was loaded, because the threads
owning lanes 1..127 exited at kernel entry — while the claimed value is
`128`. -/
theorem C3_counterexample :
    launchShared 1 (fun _ _ => 1) 1 129 (fun _ => 1) 0 (fun _ => 1)
      (fun _ _ => 0) 0 ≠
      1 * (∑ j ∈ Finset.range (129 / BLOCK_SIZE * BLOCK_SIZE),
        (fun _ _ => (1 : ℚ)) 0 j * (fun _ => (1 : ℚ)) j) +
        0 * (fun _ => (1 : ℚ)) 0 := by
  rw [launchShared_one_row]
  have h : (129 / BLOCK_SIZE * BLOCK_SIZE) = 128 := by
    rw [BLOCK_SIZE]
  rw [h]
  simp

/-- Claim C3 as amended: when every execution group is fully populated
(`N` a multiple of `BLOCK_SIZE`, so every worker performs its cooperative
load), the tiled kernel processes only `M / BLOCK_SIZE` full tiles and each
row `i < N` outputs the truncated reduction
`alpha * (∑ j < (M/BLOCK_SIZE)*BLOCK_SIZE, A[i,j]*x[j]) + beta*y[i]`,
silently dropping the remainder terms. -/
theorem C3_amended_truncated_reduction (alpha : ℚ) (A : ℕ → ℕ → ℚ) (N M : ℕ)
    (x : ℕ → ℚ) (beta : ℚ) (y : ℕ → ℚ) (lx0 : ℕ → ℕ → ℚ)
    (hN : N % BLOCK_SIZE = 0) (hM : M % BLOCK_SIZE ≠ 0) (i : ℕ) (hi : i < N) :
    launchShared alpha A N M x beta y lx0 i =
      alpha * (∑ j ∈ Finset.range (M / BLOCK_SIZE * BLOCK_SIZE), A i j * x j)
        + beta * y i := by
  rw [launchShared_apply alpha A N M x beta y lx0 hN, if_pos hi]

/-- Witness for the amended C3 at `N = 128`, `M = 129`, row 3. -/
theorem C3_amended_witness :
    128 % BLOCK_SIZE = 0 ∧ 129 % BLOCK_SIZE ≠ 0 ∧ 3 < 128 ∧
    launchShared 1 (fun _ _ => 1) 128 129 (fun _ => 1) 0 (fun _ => 0)
      (fun _ _ => 4) 3 =
      1 * (∑ j ∈ Finset.range (129 / BLOCK_SIZE * BLOCK_SIZE),
        (fun _ _ => (1 : ℚ)) 3 j * (fun _ => (1 : ℚ)) j) +
        0 * (fun _ => (0 : ℚ)) 3 :=
  ⟨by rw [BLOCK_SIZE], by rw [BLOCK_SIZE]; norm_num, by norm_num,
    C3_amended_truncated_reduction 1 (fun _ _ => 1) 128 129 (fun _ => 1) 0
      (fun _ => 0) (fun _ _ => 4) (by rw [BLOCK_SIZE])
      (by rw [BLOCK_SIZE]; norm_num) 3 (by norm_num)⟩

/-- Counterexample to claim C10: the tiled shared-memory variant is not
deterministic in its inputs alone.  Two executions on identical inputs
(`alpha`, `A`, `x`, `beta`, `y`, `N = 1`, `M = 129`, same launch) differ when
the residual contents of the uninitialized shared tile buffer differ, because
the group is only partially populated and surviving rows read lanes no thread
loaded: row 0 yields `1` with zeroed residual memory and `128` with all-ones
residual memory. -/
theorem C10_counterexample :
    launchShared 1 (fun _ _ => 1) 1 129 (fun _ => 1) 0 (fun _ => 1)
      (fun _ _ => 0) 0 ≠
      launchShared 1 (fun _ _ => 1) 1 129 (fun _ => 1) 0 (fun _ => 1)
        (fun _ _ => 1) 0 := by
  rw [launchShared_one_row, launchShared_one_row]
  norm_num

/-- Claim C10 as amended: `gemv_v1`, `gemv_v2` and `gemv_v3` are pure
functions of their inputs (deterministic by construction — no environment
dependence in the embedding), and the tiled shared-memory kernel is
deterministic whenever `N` is a multiple of `BLOCK_SIZE`: its output is then
independent of the residual shared-buffer contents, the only nondeterministic
environment it reads. -/
theorem C10_amended_deterministic (alpha : ℚ) (A : ℕ → ℕ → ℚ) (N M : ℕ)
    (x : ℕ → ℚ) (beta : ℚ) (y : ℕ → ℚ) (hN : N % BLOCK_SIZE = 0)
    (lx0 lx0' : ℕ → ℕ → ℚ) (i : ℕ) :
    launchShared alpha A N M x beta y lx0 i =
      launchShared alpha A N M x beta y lx0' i := by
  rw [launchShared_apply alpha A N M x beta y lx0 hN,
    launchShared_apply alpha A N M x beta y lx0' hN]

/-- Witness for the amended C10 at `N = 128`, `M = 200`. -/
theorem C10_amended_witness :
    128 % BLOCK_SIZE = 0 ∧
    launchShared 2 (fun i j => i * j) 128 200 (fun j => j + 1) 3
      (fun _ => 7) (fun _ _ => 0) 11 =
      launchShared 2 (fun i j => i * j) 128 200 (fun j => j + 1) 3
        (fun _ => 7) (fun _ _ => 55) 11 :=
  ⟨by rw [BLOCK_SIZE],
    C10_amended_deterministic 2 (fun i j => i * j) 128 200 (fun j => j + 1)
      3 (fun _ => 7) (by rw [BLOCK_SIZE]) (fun _ _ => 0) (fun _ _ => 55) 11⟩

/-- Claim C4: the validator returns `true` on two length-`N` vectors exactly
when every element satisfies
`|found[i] - expected[i]| ≤ 1e-8 + 1e-5 * |expected[i]|` (element-wise
approximate equality with absolute tolerance `1e-8` and relative tolerance
`1e-5`); it is a pure boolean-valued function. -/
theorem C4_validate_iff (found expected : ℕ → ℚ) (N : ℕ) :
    validate found expected N = true ↔
      ∀ i < N, |found i - expected i| ≤
        1 / 100000000 + 1 / 100000 * |expected i| := by
  rw [validate, allclose]
  simp [List.all_eq_true, List.mem_range, atol, rtol]

/-- Witness for C4: the validator accepts a pair of close vectors. -/
theorem C4_witness :
    validate (fun _ => 1) (fun i => 1 + (i : ℚ) * 0) 2 = true :=
  (C4_validate_iff (fun _ => 1) (fun i => 1 + (i : ℚ) * 0) 2).mpr
    (by intro i _; simp; norm_num)

/-- Claim C6: the harness's group count is `ceil(N / BLOCK_SIZE)` — computed
as `N // BLOCK_SIZE` incremented when `N % BLOCK_SIZE` is nonzero — so it is
at least 1 for every positive `N`, and the launched workers
(`numBlocks N * BLOCK_SIZE` of them) cover every row index `0..N-1`. -/
theorem C6_numBlocks_ceil (N : ℕ) (hpos : 0 < N) :
    numBlocks N = (N + BLOCK_SIZE - 1) / BLOCK_SIZE ∧
    (numBlocks N : ℤ) = ⌈(N : ℚ) / (BLOCK_SIZE : ℚ)⌉ ∧
    1 ≤ numBlocks N ∧
    ∀ i < N, i < numBlocks N * BLOCK_SIZE := by
  have hle : N ≤ numBlocks N * BLOCK_SIZE := numBlocks_mul_ge N
  have hlt : numBlocks N * BLOCK_SIZE < N + BLOCK_SIZE := by
    rw [numBlocks, BLOCK_SIZE]
    rcases eq_or_ne (N % 128) 0 with h | h
    · rw [if_neg (by omega)]
      omega
    · rw [if_pos h]
      omega
  refine ⟨?_, ?_, ?_, ?_⟩
  · rw [numBlocks, BLOCK_SIZE]
    rcases eq_or_ne (N % 128) 0 with h | h
    · rw [if_neg (by omega)]
      omega
    · rw [if_pos h]
      omega
  · rw [eq_comm, Int.ceil_eq_iff]
    have hB : (0 : ℚ) < (BLOCK_SIZE : ℚ) := by
      norm_num [BLOCK_SIZE]
    have hltQ : (numBlocks N : ℚ) * (BLOCK_SIZE : ℚ) <
        (N : ℚ) + (BLOCK_SIZE : ℚ) := by
      exact_mod_cast hlt
    have hleQ : (N : ℚ) ≤ (numBlocks N : ℚ) * (BLOCK_SIZE : ℚ) := by
      exact_mod_cast hle
    constructor
    · rw [lt_div_iff₀ hB]
      push_cast
      have hexp : ((numBlocks N : ℚ) - 1) * (BLOCK_SIZE : ℚ) =
          (numBlocks N : ℚ) * (BLOCK_SIZE : ℚ) - (BLOCK_SIZE : ℚ) := by
        ring
      rw [hexp]
      linarith
    · rw [div_le_iff₀ hB]
      push_cast
      linarith
  · rw [numBlocks, BLOCK_SIZE]
    rcases eq_or_ne (N % 128) 0 with h | h
    · rw [if_neg (by omega)]
      omega
    · rw [if_pos h]
      omega
  · intro i hi
    omega

/-- Witness for C6 at the boundary `N = 1`: one group is launched. -/
theorem C6_witness :
    0 < 1 ∧ numBlocks 1 = (1 + BLOCK_SIZE - 1) / BLOCK_SIZE ∧
      1 ≤ numBlocks 1 ∧ ∀ i < 1, i < numBlocks 1 * BLOCK_SIZE := by
  have h := C6_numBlocks_ceil 1 (by norm_num)
  exact ⟨by norm_num, h.1, h.2.2.1, h.2.2.2⟩

/-- Claim C7: the naive device kernel, on an `N×M` matrix with any grid of
`T ≥ N` workers, has every worker `i < N` write exactly
`y[i] = alpha * (∑ j < M, A[i,j]*x[j]) + beta*y[i]` (so the grid result at
`i` is that value), and every worker `i ≥ N` return without performing any
memory write; rectangular shapes and `N`, `M` not multiples of `BLOCK_SIZE`
are fully supported — the naive kernel has no remainder restriction. -/
theorem C7_naive_no_restriction (alpha : ℚ) (A : ℕ → ℕ → ℚ) (N M : ℕ)
    (x : ℕ → ℚ) (beta : ℚ) (y : ℕ → ℚ) (T : ℕ) (hT : N ≤ T) :
    (∀ i < N, gemvCudaThread alpha A N M x beta y i =
        some (i, alpha * (∑ j ∈ Finset.range M, A i j * x j) + beta * y i) ∧
      runGrid (gemvCudaThread alpha A N M x beta y) T y i =
        alpha * (∑ j ∈ Finset.range M, A i j * x j) + beta * y i) ∧
    ∀ i, N ≤ i → gemvCudaThread alpha A N M x beta y i = none := by
  constructor
  · intro i hi
    constructor
    · rw [gemvCudaThread, if_neg (by omega), accum_eq_sum]
    · exact naiveGrid_apply alpha A N M x beta y T hT i hi
  · intro i hi
    rw [gemvCudaThread, if_pos hi]

/-- Witness for C7 on a rectangular 2×3 problem with a grid of 5 workers. -/
theorem C7_witness :
    2 ≤ 5 ∧
    ((∀ i < 2, gemvCudaThread 1 (fun i j => i + j) 2 3 (fun _ => 1) 2
        (fun _ => 1) i =
        some (i, 1 * (∑ j ∈ Finset.range 3, ((i : ℚ) + j) * 1) + 2 * 1) ∧
      runGrid (gemvCudaThread 1 (fun i j => i + j) 2 3 (fun _ => 1) 2
        (fun _ => 1)) 5 (fun _ => 1) i =
        1 * (∑ j ∈ Finset.range 3, ((i : ℚ) + j) * 1) + 2 * 1) ∧
    ∀ i, 2 ≤ i → gemvCudaThread 1 (fun i j => i + j) 2 3 (fun _ => 1) 2
      (fun _ => 1) i = none) :=
  ⟨by norm_num,
    C7_naive_no_restriction 1 (fun i j => i + j) 2 3 (fun _ => 1) 2
      (fun _ => 1) 5 (by norm_num)⟩

/-- Claim C9: a timer region constructed with offset `t0`, entered at instant
`s` and exited at instant `e`, reports elapsed time `t0 + (e - s)`; and
chaining sequentially timed regions — each region's offset being the previous
region's elapsed time — accumulates the running total of the regions'
durations on top of the initial offset. -/
theorem C9_time_region_offset (t0 s e : ℚ) (l : List (ℚ × ℚ)) :
    (time_region.mk t0 s e).elapsed_time = t0 + (e - s) ∧
    chainRegions t0 l = t0 + (l.map fun p => p.2 - p.1).sum := by
  refine ⟨rfl, ?_⟩
  induction l generalizing t0 with
  | nil => simp [chainRegions]
  | cons p rest ih =>
    rw [chainRegions, ih]
    simp [time_region.elapsed_time]
    ring

/-- Claim C5: the program exits with code 1 exactly when: fewer than two
command-line arguments are given, the dimension argument does not parse as an
integer, the version tag matches no `gemv_` kernel, the dimension is not
positive, or the computed result fails validation — in which case it first
prints the found and expected vectors; every other run exits with code 0. -/
theorem C5_main_exit_codes (argv : List String) (randA : ℕ → ℕ → ℚ)
    (randx : ℕ → ℚ) (emptyEnv : ℕ → ℚ) :
    ((mainRun argv randA randx emptyEnv).exit_code = 0 ∨
      (mainRun argv randA randx emptyEnv).exit_code = 1) ∧
    ((mainRun argv randA randx emptyEnv).exit_code = 0 ↔
      (3 ≤ argv.length ∧
        ∃ n : ℤ, parseIntPy (argv.getD 1 "") = some n ∧
          argv.getD 2 "" ∈ knownVersions ∧ 0 < n ∧
          validate
            (runKernel (argv.getD 2 "") alphaMain randA n.toNat randx betaMain
              (fun _ => 1) emptyEnv)
            (gemvRef alphaMain randA n.toNat randx betaMain (fun _ => 1))
            n.toNat = true)) ∧
    (∀ n : ℤ, parseIntPy (argv.getD 1 "") = some n → 3 ≤ argv.length →
      argv.getD 2 "" ∈ knownVersions → 0 < n →
      validate
        (runKernel (argv.getD 2 "") alphaMain randA n.toNat randx betaMain
          (fun _ => 1) emptyEnv)
        (gemvRef alphaMain randA n.toNat randx betaMain (fun _ => 1))
        n.toNat = false →
      (mainRun argv randA randx emptyEnv).exit_code = 1 ∧
      (mainRun argv randA randx emptyEnv).printed =
        some (runKernel (argv.getD 2 "") alphaMain randA n.toNat randx
            betaMain (fun _ => 1) emptyEnv,
          gemvRef alphaMain randA n.toNat randx betaMain (fun _ => 1))) := by
  by_cases hlen : argv.length < 3
  · have hm : mainRun argv randA randx emptyEnv = ⟨1, none⟩ := by
      rw [mainRun, if_pos hlen]
    rw [hm]
    refine ⟨Or.inr rfl, ⟨fun h => absurd h (by norm_num),
      fun h => absurd h.1 (by omega)⟩, ?_⟩
    intro n _ h3
    exact absurd h3 (by omega)
  · push_neg at hlen
    rcases hparse : parseIntPy (argv.getD 1 "") with _ | n
    · have hm : mainRun argv randA randx emptyEnv = ⟨1, none⟩ := by
        rw [mainRun, if_neg (by omega), hparse]
      rw [hm]
      refine ⟨Or.inr rfl, ⟨fun h => absurd h (by norm_num), ?_⟩, ?_⟩
      · rintro ⟨-, m, hm2, -⟩
        cases hm2
      · intro m hm2
        cases hm2
    · by_cases hver : argv.getD 2 "" ∈ knownVersions
      · by_cases hn0 : n ≤ 0
        · have hm : mainRun argv randA randx emptyEnv = ⟨1, none⟩ := by
            rw [mainRun, if_neg (by omega), hparse]
            simp only [if_pos hver, if_pos hn0]
          rw [hm]
          refine ⟨Or.inr rfl, ⟨fun h => absurd h (by norm_num), ?_⟩, ?_⟩
          · rintro ⟨-, m, hm2, -, hm0, -⟩
            injection hm2 with hm2
            omega
          · intro m hm2 _ _ hm0
            injection hm2 with hm2
            omega
        · push_neg at hn0
          by_cases hval : validate
              (runKernel (argv.getD 2 "") alphaMain randA n.toNat randx
                betaMain (fun _ => 1) emptyEnv)
              (gemvRef alphaMain randA n.toNat randx betaMain (fun _ => 1))
              n.toNat = true
          · have hm : mainRun argv randA randx emptyEnv = ⟨0, none⟩ := by
              rw [mainRun, if_neg (by omega), hparse]
              simp only [if_pos hver, if_neg (by omega : ¬n ≤ 0)]
              rw [if_pos hval]
            rw [hm]
            refine ⟨Or.inl rfl, ⟨fun _ => ⟨hlen, n, rfl, hver, hn0, hval⟩,
              fun _ => rfl⟩, ?_⟩
            intro m hm2 _ _ _ hvalf
            injection hm2 with hm2
            subst hm2
            rw [hval] at hvalf
            cases hvalf
          · have hm : mainRun argv randA randx emptyEnv =
                ⟨1, some (runKernel (argv.getD 2 "") alphaMain randA n.toNat
                    randx betaMain (fun _ => 1) emptyEnv,
                  gemvRef alphaMain randA n.toNat randx betaMain
                    (fun _ => 1))⟩ := by
              rw [mainRun, if_neg (by omega), hparse]
              simp only [if_pos hver, if_neg (by omega : ¬n ≤ 0)]
              rw [if_neg hval]
            rw [hm]
            refine ⟨Or.inr rfl, ⟨fun h => absurd h (by norm_num), ?_⟩, ?_⟩
            · rintro ⟨-, m, hm2, -, -, hvalt⟩
              injection hm2 with hm2
              subst hm2
              exact absurd hvalt hval
            · intro m hm2 _ _ _ _
              injection hm2 with hm2
              subst hm2
              exact ⟨rfl, rfl⟩
      · have hm : mainRun argv randA randx emptyEnv = ⟨1, none⟩ := by
          rw [mainRun, if_neg (by omega), hparse]
          simp only [if_neg hver]
        rw [hm]
        refine ⟨Or.inr rfl, ⟨fun h => absurd h (by norm_num), ?_⟩, ?_⟩
        · rintro ⟨-, m, hm2, hv, -⟩
          exact absurd hv hver
        · intro m hm2 _ hv
          exact absurd hv hver

/-- Witness for C5: running with no arguments exits with code 1. -/
theorem C5_witness :
    (mainRun ["prog"] (fun _ _ => 0) (fun _ => 0) (fun _ => 0)).exit_code =
      1 := by
  have h := C5_main_exit_codes ["prog"] (fun _ _ => 0) (fun _ => 0)
    (fun _ => 0)
  rcases h.1 with h0 | h1
  · exfalso
    exact absurd ((h.2.1).mp h0).1 (by decide)
  · exact h1

/-! ### Frame lemmas for the heap model -/

theorem Heap.alloc_next (h : Heap) (init : ℕ → ℕ → ℚ) :
    (h.alloc init).2.next = h.next + 1 := rfl

theorem Heap.alloc_fst (h : Heap) (init : ℕ → ℕ → ℚ) :
    (h.alloc init).1 = h.next := rfl

theorem Heap.alloc_mem_ne (h : Heap) (init : ℕ → ℕ → ℚ) (a : ℕ)
    (ha : a ≠ h.next) : (h.alloc init).2.mem a = h.mem a := by
  simp [Heap.alloc, ha]

theorem Heap.vecWrite_next (h : Heap) (addr i : ℕ) (v : ℚ) :
    (h.vecWrite addr i v).next = h.next := rfl

theorem Heap.vecWrite_mem_ne (h : Heap) (addr i : ℕ) (v : ℚ) (a : ℕ)
    (ha : a ≠ addr) : (h.vecWrite addr i v).mem a = h.mem a := by
  simp [Heap.vecWrite, ha]

/-- The `gemv_v1` write loop touches only the result buffer `aRet`. -/
theorem gemvV1Loop_mem_ne (alpha : ℚ) (aA aX : ℕ) (beta : ℚ) (aY aRet M : ℕ)
    (a : ℕ) (ha : a ≠ aRet) (n : ℕ) (h : Heap) :
    (gemvV1Loop alpha aA aX beta aY aRet M n h).mem a = h.mem a := by
  induction n with
  | zero => rfl
  | succ n ih =>
    simp only [gemvV1Loop]
    rw [Heap.vecWrite_mem_ne _ _ _ _ _ ha]
    exact ih

theorem gemvV1Loop_next (alpha : ℚ) (aA aX : ℕ) (beta : ℚ) (aY aRet M : ℕ)
    (n : ℕ) (h : Heap) :
    (gemvV1Loop alpha aA aX beta aY aRet M n h).next = h.next := by
  induction n with
  | zero => rfl
  | succ n ih =>
    simp only [gemvV1Loop]
    rw [Heap.vecWrite_next]
    exact ih

/-- A device grid execution touches only the buffer it writes (`addr`). -/
theorem runGridHeap_mem_ne (thread : ℕ → Option (ℕ × ℚ)) (addr : ℕ) (a : ℕ)
    (ha : a ≠ addr) (n : ℕ) (h : Heap) :
    (runGridHeap thread addr n h).mem a = h.mem a := by
  induction n with
  | zero => rfl
  | succ n ih =>
    simp only [runGridHeap]
    rcases thread n with _ | p
    · exact ih
    · rw [Heap.vecWrite_mem_ne _ _ _ _ _ ha]
      exact ih

theorem runGridHeap_next (thread : ℕ → Option (ℕ × ℚ)) (addr : ℕ) (n : ℕ)
    (h : Heap) : (runGridHeap thread addr n h).next = h.next := by
  induction n with
  | zero => rfl
  | succ n ih =>
    simp only [runGridHeap]
    rcases thread n with _ | p
    · exact ih
    · rw [Heap.vecWrite_next]
      exact ih

/-- Claim C8: no gemv variant mutates its host-side inputs.  In the heap
model, each of `gemv_v1` (parallel CPU), `gemv_v2` (library) and `gemv_v3`
(GPU harness) leaves every pre-existing buffer — in particular the buffers
holding `A`, `x` and `y` — exactly as it was, and returns its result in a
freshly allocated buffer (an address no pre-existing buffer uses).  The GPU
harness writes only the device copy `d_y` and the copied-back result. -/
theorem C8_no_input_mutation (alpha beta : ℚ) (N M : ℕ)
    (emptyInit : ℕ → ℕ → ℚ) (h : Heap) (aA aX aY : ℕ) :
    (∀ a < h.next,
      (gemv_v1_heap alpha aA aX beta aY N M emptyInit h).2.mem a = h.mem a ∧
      (gemv_v2_heap alpha aA aX beta aY M h).2.mem a = h.mem a ∧
      (gemv_v3_heap alpha aA aX beta aY N h).2.mem a = h.mem a) ∧
    (h.next ≤ (gemv_v1_heap alpha aA aX beta aY N M emptyInit h).1 ∧
      h.next ≤ (gemv_v2_heap alpha aA aX beta aY M h).1 ∧
      h.next ≤ (gemv_v3_heap alpha aA aX beta aY N h).1) := by
  constructor
  · intro a ha
    refine ⟨?_, ?_, ?_⟩
    · simp only [gemv_v1_heap]
      rw [gemvV1Loop_mem_ne _ _ _ _ _ _ _ _
        (by simp only [Heap.alloc_fst]; omega)]
      rw [Heap.alloc_mem_ne _ _ _ (by omega)]
    · simp only [gemv_v2_heap]
      rw [Heap.alloc_mem_ne _ _ _ (by omega)]
    · simp only [gemv_v3_heap]
      rw [Heap.alloc_mem_ne _ _ _
          (by simp only [runGridHeap_next, Heap.alloc_next]; omega),
        runGridHeap_mem_ne _ _ _
          (by simp only [Heap.alloc_fst, Heap.alloc_next]; omega),
        Heap.alloc_mem_ne _ _ _ (by simp only [Heap.alloc_next]; omega),
        Heap.alloc_mem_ne _ _ _ (by simp only [Heap.alloc_next]; omega),
        Heap.alloc_mem_ne _ _ _ (by omega)]
  · refine ⟨?_, ?_, ?_⟩
    · simp only [gemv_v1_heap, Heap.alloc_fst]
      omega
    · simp only [gemv_v2_heap, Heap.alloc_fst]
      omega
    · simp only [gemv_v3_heap, Heap.alloc_fst, runGridHeap_next,
        Heap.alloc_next]
      omega

/-- Witness for C8 on a concrete three-buffer heap. -/
theorem C8_witness :
    (0 : ℕ) < (⟨3, fun _ i j => (i + j : ℚ)⟩ : Heap).next ∧
    ((gemv_v1_heap 2 0 1 3 2 4 4 (fun _ _ => 7)
        ⟨3, fun _ i j => (i + j : ℚ)⟩).2.mem 0 =
      (⟨3, fun _ i j => (i + j : ℚ)⟩ : Heap).mem 0 ∧
    (gemv_v2_heap 2 0 1 3 2 4 ⟨3, fun _ i j => (i + j : ℚ)⟩).2.mem 0 =
      (⟨3, fun _ i j => (i + j : ℚ)⟩ : Heap).mem 0 ∧
    (gemv_v3_heap 2 0 1 3 2 4 ⟨3, fun _ i j => (i + j : ℚ)⟩).2.mem 0 =
      (⟨3, fun _ i j => (i + j : ℚ)⟩ : Heap).mem 0) :=
  ⟨by decide,
    (C8_no_input_mutation 2 3 4 4 (fun _ _ => 7)
      ⟨3, fun _ i j => (i + j : ℚ)⟩ 0 1 2).1 0 (by decide)⟩
